import Mathlib

/-!
Shallow embedding of `utp.py`, a generator that tabulates unshielded
twisted pair capacitances over the cross product of a dielectric table,
a conductor table and an insulation-thickness table, using the General
Cable (base-10 log) and Howard Johnson (natural log) formulas.

Table values are embedded as exact rationals; the two capacitance
formulas, which divide by a logarithm, live in `ℝ`.
-/

namespace Utp

/-- `STRANDING_FACTOR = 0.939 # 7 strands`, the active choice in the source. -/
def STRANDING_FACTOR : ℚ := 0.939

/-- `DIELECTRIC_LIST`: (material name, dielectric constant). -/
def DIELECTRIC_LIST : List (String × ℚ) := [
  ("ECTFE/Halar",     2.60),
  ("PFA/Teflon",      2.15),
  ("PVC",             5.00),
  ("PVC(Semi-rigid)", 3.60),
  ("PVDF/Kynar/SOLEF", 7.70),
  ("Polyethylene",    2.29),
  ("Polypropylene",   2.25),
  ("Polyurethane",    6.50),
  ("Rubber(butyl)",   4.0),
  ("Rubber(natural)", 5.0),
  ("Rubber(SBR)",     4.0),
  ("Rubber(silicone)", 3.1),
  ("TFE/Teflon",      2.1),
  ("TPE",             5.0),
  ("Teflon",          2.10),
  ("Tefzel",          2.6)]

/-- `CONDUCTOR_LIST`: (gauge label, stranding label, diameter in inches). -/
def CONDUCTOR_LIST : List (String × String × ℚ) := [
  ("AWG30", "7/38", 0.012),
  ("AWG28", "7/36", 0.015),
  ("AWG26", "7/34", 0.019),
  ("AWG24", "7/32", 0.024),
  ("AWG22", "7/30", 0.030)]

/-- `INSULATION_THICKNESS_LIST`: thickness in inches. -/
def INSULATION_THICKNESS_LIST : List ℚ := [
  0.006, 0.010, 0.011, 0.012, 0.015, 0.017, 0.018, 0.019, 0.030, 0.032, 0.045, 0.060]

/-- `MM_PER_FT = 25.4 * 12.0`. -/
def MM_PER_FT : ℚ := 25.4 * 12.0

/-- The General Cable capacitance (pF/ft) with the stranding factor `k` as an
explicit parameter:
`( 2.2 * material[1] ) / math.log10( (1.3 * ((2.0 * thickness) + conductor[2]))
/ (STRANDING_FACTOR * conductor[2]) )`. -/
noncomputable def capacitanceK (k d D t : ℚ) : ℝ :=
  (2.2 * (d : ℝ)) /
    Real.logb 10 ((1.3 * ((2.0 * (t : ℝ)) + (D : ℝ))) / ((k : ℝ) * (D : ℝ)))

/-- `capacitance` from the source: the General Cable formula at the active
`STRANDING_FACTOR`. -/
noncomputable def capacitance (d D t : ℚ) : ℝ :=
  capacitanceK STRANDING_FACTOR d D t

/-- `capacitance_mm = capacitance / MM_PER_FT`. -/
noncomputable def capacitance_mm (d D t : ℚ) : ℝ :=
  capacitance d D t / (MM_PER_FT : ℝ)

/-- The Howard Johnson capacitance (pF/ft) with the stranding factor `k` as an
explicit parameter:
`( 12 * 0.7065 ) / math.log( (2 * ((2.0 * thickness) + conductor[2]))
/ (STRANDING_FACTOR * conductor[2]) ) * material[1]`. -/
noncomputable def capacitance2K (k d D t : ℚ) : ℝ :=
  (12 * 0.7065) /
    Real.log ((2 * ((2.0 * (t : ℝ)) + (D : ℝ))) / ((k : ℝ) * (D : ℝ))) * (d : ℝ)

/-- `capacitance2` from the source: the Howard Johnson formula at the active
`STRANDING_FACTOR`. -/
noncomputable def capacitance2 (d D t : ℚ) : ℝ :=
  capacitance2K STRANDING_FACTOR d D t

/-- `capacitance2_mm = capacitance2 / MM_PER_FT`. -/
noncomputable def capacitance2_mm (d D t : ℚ) : ℝ :=
  capacitance2 d D t / (MM_PER_FT : ℝ)

/-- One emitted line, as the typed tuple handed to the `print` format string. -/
structure Line where
  gauge : String
  thickness : ℚ
  material : String
  cap_ft : ℝ
  cap_mm : ℝ
  cap2_ft : ℝ
  cap2_mm : ℝ

/-- The per-combination body of the triple loop. -/
noncomputable def mkLine (material : String × ℚ) (conductor : String × String × ℚ)
    (thickness : ℚ) : Line :=
  { gauge := conductor.1
    thickness := thickness
    material := material.1
    cap_ft := capacitance material.2 conductor.2.2 thickness
    cap_mm := capacitance_mm material.2 conductor.2.2 thickness
    cap2_ft := capacitance2 material.2 conductor.2.2 thickness
    cap2_mm := capacitance2_mm material.2 conductor.2.2 thickness }

/-- Innermost loop `for thickness in INSULATION_THICKNESS_LIST`, at a fixed
material and conductor. -/
def thicknessRow (material : String × ℚ) (conductor : String × String × ℚ) :
    List ((String × ℚ) × (String × String × ℚ) × ℚ) :=
  INSULATION_THICKNESS_LIST.map (fun thickness => (material, conductor, thickness))

/-- Middle loop `for conductor in CONDUCTOR_LIST`, at a fixed material. -/
def conductorBlock (material : String × ℚ) :
    List ((String × ℚ) × (String × String × ℚ) × ℚ) :=
  CONDUCTOR_LIST.flatMap (thicknessRow material)

/-- The triples visited by the nested loops
`for material in DIELECTRIC_LIST: for conductor in CONDUCTOR_LIST:
for thickness in INSULATION_THICKNESS_LIST`, in visit order. -/
def utpCombos : List ((String × ℚ) × (String × String × ℚ) × ℚ) :=
  DIELECTRIC_LIST.flatMap conductorBlock

/-- All emitted lines of one run, in emission order. -/
noncomputable def utpLines : List Line :=
  utpCombos.map (fun c => mkLine c.1 c.2.1 c.2.2)

/-- `exit_code = 0` from the source. -/
def exit_code : ℕ := 0

/-- A whole run: the emitted lines together with the `sys.exit` status. -/
noncomputable def utpRun : List Line × ℕ := (utpLines, exit_code)

theorem DIELECTRIC_LIST_length : DIELECTRIC_LIST.length = 16 := rfl

theorem CONDUCTOR_LIST_length : CONDUCTOR_LIST.length = 5 := rfl

theorem INSULATION_THICKNESS_LIST_length : INSULATION_THICKNESS_LIST.length = 12 := rfl

set_option maxRecDepth 8000 in
theorem utpCombos_length : utpCombos.length = 960 := rfl

theorem dielectric_pos : ∀ p ∈ DIELECTRIC_LIST, 0 < p.2 := by
  intro p hp
  fin_cases hp <;> norm_num

theorem conductor_pos : ∀ c ∈ CONDUCTOR_LIST, 0 < c.2.2 := by
  intro c hc
  fin_cases hc <;> norm_num

theorem thickness_pos : ∀ t ∈ INSULATION_THICKNESS_LIST, 0 < t := by
  intro t ht
  fin_cases ht <;> norm_num

/-- The General Cable logarithm argument exceeds 1 whenever the stranding
factor lies in (0,1] and diameter and thickness are positive. -/
theorem gc_arg_gt_one {k D t : ℝ} (hk : 0 < k) (hk1 : k ≤ 1) (hD : 0 < D) (ht : 0 < t) :
    1 < (1.3 * ((2.0 * t) + D)) / (k * D) := by
  rw [one_lt_div (by positivity)]
  nlinarith [mul_le_mul_of_nonneg_right hk1 hD.le]

/-- The Howard Johnson logarithm argument exceeds 1 under the same bounds. -/
theorem hj_arg_gt_one {k D t : ℝ} (hk : 0 < k) (hk1 : k ≤ 1) (hD : 0 < D) (ht : 0 < t) :
    1 < (2 * ((2.0 * t) + D)) / (k * D) := by
  rw [one_lt_div (by positivity)]
  nlinarith [mul_le_mul_of_nonneg_right hk1 hD.le]

/-- Both logarithm arguments strictly decrease as the stranding factor grows. -/
theorem arg_anti_in_k {a k1 k2 D : ℝ} (ha : 0 < a) (hk : 0 < k1) (hkk : k1 < k2)
    (hD : 0 < D) : a / (k2 * D) < a / (k1 * D) :=
  div_lt_div_of_pos_left ha (by positivity) (by nlinarith)

/-- Dividing a positive constant by `logb 10` of a larger argument gives a
strictly smaller value, provided the smaller argument already exceeds 1. -/
theorem div_logb_anti {c x y : ℝ} (hc : 0 < c) (hx : 1 < x) (hxy : x < y) :
    c / Real.logb 10 y < c / Real.logb 10 x :=
  div_lt_div_of_pos_left hc (Real.logb_pos (by norm_num) hx)
    (Real.logb_lt_logb (by norm_num) (by linarith) hxy)

/-- Same anti-monotonicity for the natural-log form, times a positive factor. -/
theorem div_log_mul_anti {c d x y : ℝ} (hc : 0 < c) (hd : 0 < d) (hx : 1 < x)
    (hxy : x < y) : c / Real.log y * d < c / Real.log x * d :=
  mul_lt_mul_of_pos_right
    (div_lt_div_of_pos_left hc (Real.log_pos hx) (Real.log_lt_log (by linarith) hxy)) hd

/-- C1: for every (material, conductor, thickness) triple of the static
tables, the first printed capacitance equals the General Cable formula
`(2.2 * d) / log10((1.3 * (2*t + D)) / (0.939 * D))` with the active
stranding factor 0.939. -/
theorem C1_general_cable_formula (name g s : String) (d D t : ℚ)
    (hm : (name, d) ∈ DIELECTRIC_LIST) (hc : (g, s, D) ∈ CONDUCTOR_LIST)
    (ht : t ∈ INSULATION_THICKNESS_LIST) :
    (mkLine (name, d) (g, s, D) t).cap_ft =
      (2.2 * (d : ℝ)) /
        Real.logb 10 ((1.3 * (2 * (t : ℝ) + (D : ℝ))) / (0.939 * (D : ℝ))) := by
  simp only [mkLine, capacitance, capacitanceK, STRANDING_FACTOR]
  norm_num

/-- C1 witness: the ECTFE/Halar, AWG30, 0.006-inch instance of the claim. -/
theorem C1_general_cable_formula_witness :
    (("ECTFE/Halar", (2.60 : ℚ)) ∈ DIELECTRIC_LIST) ∧
    (("AWG30", "7/38", (0.012 : ℚ)) ∈ CONDUCTOR_LIST) ∧
    ((0.006 : ℚ) ∈ INSULATION_THICKNESS_LIST) ∧
    (mkLine ("ECTFE/Halar", 2.60) ("AWG30", "7/38", 0.012) 0.006).cap_ft =
      (2.2 * ((2.60 : ℚ) : ℝ)) /
        Real.logb 10 ((1.3 * (2 * ((0.006 : ℚ) : ℝ) + ((0.012 : ℚ) : ℝ))) /
          (0.939 * ((0.012 : ℚ) : ℝ))) :=
  ⟨List.mem_cons_self _ _, List.mem_cons_self _ _, List.mem_cons_self _ _,
    C1_general_cable_formula "ECTFE/Halar" "AWG30" "7/38" 2.60 0.012 0.006
      (List.mem_cons_self _ _) (List.mem_cons_self _ _) (List.mem_cons_self _ _)⟩

/-- C2: for every triple of the static tables, the second printed capacitance
equals the Howard Johnson formula
`((12 * 0.7065) / ln((2 * (2*t + D)) / (0.939 * D))) * d`, with the natural
(base-e) logarithm. -/
theorem C2_howard_johnson_formula (name g s : String) (d D t : ℚ)
    (hm : (name, d) ∈ DIELECTRIC_LIST) (hc : (g, s, D) ∈ CONDUCTOR_LIST)
    (ht : t ∈ INSULATION_THICKNESS_LIST) :
    (mkLine (name, d) (g, s, D) t).cap2_ft =
      ((12 * 0.7065) /
        Real.log ((2 * (2 * (t : ℝ) + (D : ℝ))) / (0.939 * (D : ℝ)))) * (d : ℝ) := by
  simp only [mkLine, capacitance2, capacitance2K, STRANDING_FACTOR]
  norm_num

/-- C2 witness: the ECTFE/Halar, AWG30, 0.006-inch instance of the claim. -/
theorem C2_howard_johnson_formula_witness :
    (("ECTFE/Halar", (2.60 : ℚ)) ∈ DIELECTRIC_LIST) ∧
    (("AWG30", "7/38", (0.012 : ℚ)) ∈ CONDUCTOR_LIST) ∧
    ((0.006 : ℚ) ∈ INSULATION_THICKNESS_LIST) ∧
    (mkLine ("ECTFE/Halar", 2.60) ("AWG30", "7/38", 0.012) 0.006).cap2_ft =
      ((12 * 0.7065) /
        Real.log ((2 * (2 * ((0.006 : ℚ) : ℝ) + ((0.012 : ℚ) : ℝ))) /
          (0.939 * ((0.012 : ℚ) : ℝ)))) * ((2.60 : ℚ) : ℝ) :=
  ⟨List.mem_cons_self _ _, List.mem_cons_self _ _, List.mem_cons_self _ _,
    C2_howard_johnson_formula "ECTFE/Halar" "AWG30" "7/38" 2.60 0.012 0.006
      (List.mem_cons_self _ _) (List.mem_cons_self _ _) (List.mem_cons_self _ _)⟩

/-- C4: one run emits exactly 960 lines, one per element of the Cartesian
product of the 16 materials, 5 conductors and 12 thicknesses. -/
theorem C4_line_count :
    utpLines.length = 960 ∧ DIELECTRIC_LIST.length = 16 ∧
    CONDUCTOR_LIST.length = 5 ∧ INSULATION_THICKNESS_LIST.length = 12 ∧
    960 = 16 * 5 * 12 := by
  refine ⟨?_, rfl, rfl, rfl, rfl⟩
  rw [utpLines, List.length_map, utpCombos_length]

/-- C6: the printed per-millimeter values are the per-foot values divided by
304.8, and `MM_PER_FT = 25.4 * 12.0 = 304.8`. -/
theorem C6_mm_conversion (d D t : ℚ) :
    capacitance_mm d D t = capacitance d D t / 304.8 ∧
    capacitance2_mm d D t = capacitance2 d D t / 304.8 ∧
    MM_PER_FT = 25.4 * 12.0 ∧ MM_PER_FT = 304.8 := by
  refine ⟨?_, ?_, rfl, by norm_num [MM_PER_FT]⟩
  · rw [capacitance_mm]
    norm_num [MM_PER_FT]
  · rw [capacitance2_mm]
    norm_num [MM_PER_FT]

/-- C9: the run terminates (it is a total function) with exit status 0 after
emitting all 960 lines; the status is the only exit path's value. -/
theorem C9_exit_status : utpRun.2 = 0 ∧ utpRun.1.length = 960 := by
  refine ⟨rfl, ?_⟩
  show utpLines.length = 960
  rw [utpLines, List.length_map, utpCombos_length]

/-- C3: for every table combination the two logarithm arguments exceed 1, so
both capacitances are strictly positive and the formulas stay inside the
domain of the logarithm. -/
theorem C3_arguments_and_caps_positive (name g s : String) (d D t : ℚ)
    (hm : (name, d) ∈ DIELECTRIC_LIST) (hc : (g, s, D) ∈ CONDUCTOR_LIST)
    (ht : t ∈ INSULATION_THICKNESS_LIST) :
    1 < (1.3 * ((2.0 * (t : ℝ)) + (D : ℝ))) / ((STRANDING_FACTOR : ℝ) * (D : ℝ)) ∧
    1 < (2 * ((2.0 * (t : ℝ)) + (D : ℝ))) / ((STRANDING_FACTOR : ℝ) * (D : ℝ)) ∧
    0 < capacitance d D t ∧ 0 < capacitance2 d D t := by
  have hD : 0 < D := conductor_pos _ hc
  have ht' : 0 < t := thickness_pos _ ht
  have hdr : (0 : ℝ) < (d : ℝ) := by exact_mod_cast dielectric_pos _ hm
  have hDr : (0 : ℝ) < (D : ℝ) := by exact_mod_cast hD
  have htr : (0 : ℝ) < (t : ℝ) := by exact_mod_cast ht'
  have hk : (0 : ℝ) < (STRANDING_FACTOR : ℝ) := by norm_num [STRANDING_FACTOR]
  have hk1 : ((STRANDING_FACTOR : ℚ) : ℝ) ≤ 1 := by norm_num [STRANDING_FACTOR]
  have h1 := gc_arg_gt_one hk hk1 hDr htr
  have h2 := hj_arg_gt_one hk hk1 hDr htr
  refine ⟨h1, h2, ?_, ?_⟩
  · rw [capacitance, capacitanceK]
    exact div_pos (by positivity) (Real.logb_pos (by norm_num) h1)
  · rw [capacitance2, capacitance2K]
    exact mul_pos (div_pos (by norm_num) (Real.log_pos h2)) hdr

/-- C3 witness: the ECTFE/Halar, AWG30, 0.006-inch instance of the claim. -/
theorem C3_arguments_and_caps_positive_witness :
    (("ECTFE/Halar", (2.60 : ℚ)) ∈ DIELECTRIC_LIST) ∧
    (("AWG30", "7/38", (0.012 : ℚ)) ∈ CONDUCTOR_LIST) ∧
    ((0.006 : ℚ) ∈ INSULATION_THICKNESS_LIST) ∧
    (0 < capacitance 2.60 0.012 0.006 ∧ 0 < capacitance2 2.60 0.012 0.006) :=
  ⟨List.mem_cons_self _ _, List.mem_cons_self _ _, List.mem_cons_self _ _,
    ((C3_arguments_and_caps_positive "ECTFE/Halar" "AWG30" "7/38" 2.60 0.012 0.006
      (List.mem_cons_self _ _) (List.mem_cons_self _ _)
      (List.mem_cons_self _ _)).2.2)⟩

/-- C7 counterexample: at ECTFE/Halar, AWG30, 0.006-inch, replacing the
stranding factor 0.939 by 1.000 strictly INCREASES both capacitances, so the
claimed strict decrease is false there. -/
theorem C7_counterexample_stranding_increase :
    capacitanceK 0.939 2.60 0.012 0.006 < capacitanceK 1.000 2.60 0.012 0.006 ∧
    ¬ capacitanceK 1.000 2.60 0.012 0.006 < capacitanceK 0.939 2.60 0.012 0.006 ∧
    capacitance2K 0.939 2.60 0.012 0.006 < capacitance2K 1.000 2.60 0.012 0.006 := by
  have hgc : capacitanceK 0.939 2.60 0.012 0.006 < capacitanceK 1.000 2.60 0.012 0.006 := by
    rw [capacitanceK, capacitanceK]
    apply div_logb_anti
    · norm_num
    · push_cast
      norm_num
    · push_cast
      norm_num
  refine ⟨hgc, fun h => absurd h (lt_asymm hgc), ?_⟩
  rw [capacitance2K, capacitance2K]
  apply div_log_mul_anti
  · norm_num
  · push_cast
    norm_num
  · push_cast
    norm_num
  · push_cast
    norm_num

/-- C7 amended: for any table combination, both capacitance formulas are
strictly INCREASING in the stranding factor on (0,1]; in particular replacing
0.939 by 1.000 strictly increases every value, and no combination yields the
same value under two distinct stranding factors in (0,1]. -/
theorem C7_stranding_strict_increase (name g s : String) (d D t : ℚ)
    (hm : (name, d) ∈ DIELECTRIC_LIST) (hc : (g, s, D) ∈ CONDUCTOR_LIST)
    (ht : t ∈ INSULATION_THICKNESS_LIST) (k1 k2 : ℚ)
    (hk1 : 0 < k1) (hk12 : k1 < k2) (hk2 : k2 ≤ 1) :
    (capacitanceK k1 d D t < capacitanceK k2 d D t ∧
      capacitance2K k1 d D t < capacitance2K k2 d D t) ∧
    (capacitanceK k1 d D t ≠ capacitanceK k2 d D t ∧
      capacitance2K k1 d D t ≠ capacitance2K k2 d D t) := by
  have hD : 0 < D := conductor_pos _ hc
  have ht' : 0 < t := thickness_pos _ ht
  have hdr : (0 : ℝ) < (d : ℝ) := by exact_mod_cast dielectric_pos _ hm
  have hDr : (0 : ℝ) < (D : ℝ) := by exact_mod_cast hD
  have htr : (0 : ℝ) < (t : ℝ) := by exact_mod_cast ht'
  have hk1r : (0 : ℝ) < (k1 : ℝ) := by exact_mod_cast hk1
  have hk2r : (0 : ℝ) < (k2 : ℝ) := by
    have : (0 : ℚ) < k2 := lt_trans hk1 hk12
    exact_mod_cast this
  have hk12r : (k1 : ℝ) < (k2 : ℝ) := by exact_mod_cast hk12
  have hk2r1 : ((k2 : ℚ) : ℝ) ≤ 1 := by exact_mod_cast hk2
  have hgcx : 1 < (1.3 * ((2.0 * (t : ℝ)) + (D : ℝ))) / ((k2 : ℝ) * (D : ℝ)) :=
    gc_arg_gt_one hk2r hk2r1 hDr htr
  have hgcxy : (1.3 * ((2.0 * (t : ℝ)) + (D : ℝ))) / ((k2 : ℝ) * (D : ℝ)) <
      (1.3 * ((2.0 * (t : ℝ)) + (D : ℝ))) / ((k1 : ℝ) * (D : ℝ)) :=
    arg_anti_in_k (by positivity) hk1r hk12r hDr
  have hhjx : 1 < (2 * ((2.0 * (t : ℝ)) + (D : ℝ))) / ((k2 : ℝ) * (D : ℝ)) :=
    hj_arg_gt_one hk2r hk2r1 hDr htr
  have hhjxy : (2 * ((2.0 * (t : ℝ)) + (D : ℝ))) / ((k2 : ℝ) * (D : ℝ)) <
      (2 * ((2.0 * (t : ℝ)) + (D : ℝ))) / ((k1 : ℝ) * (D : ℝ)) :=
    arg_anti_in_k (by positivity) hk1r hk12r hDr
  have hgc : capacitanceK k1 d D t < capacitanceK k2 d D t := by
    rw [capacitanceK, capacitanceK]
    exact div_logb_anti (by positivity) hgcx hgcxy
  have hhj : capacitance2K k1 d D t < capacitance2K k2 d D t := by
    rw [capacitance2K, capacitance2K]
    exact div_log_mul_anti (by norm_num) hdr hhjx hhjxy
  exact ⟨⟨hgc, hhj⟩, ne_of_lt hgc, ne_of_lt hhj⟩

/-- C7 amended witness: the ECTFE/Halar, AWG30, 0.006-inch instance with the
stranding factor moved from 0.939 to 1.000. -/
theorem C7_stranding_strict_increase_witness :
    ((0 : ℚ) < 0.939 ∧ (0.939 : ℚ) < 1.000 ∧ (1.000 : ℚ) ≤ 1) ∧
    (capacitanceK 0.939 2.60 0.012 0.006 < capacitanceK 1.000 2.60 0.012 0.006 ∧
      capacitance2K 0.939 2.60 0.012 0.006 < capacitance2K 1.000 2.60 0.012 0.006) :=
  ⟨⟨by norm_num, by norm_num, by norm_num⟩,
    (C7_stranding_strict_increase "ECTFE/Halar" "AWG30" "7/38" 2.60 0.012 0.006
      (List.mem_cons_self _ _) (List.mem_cons_self _ _) (List.mem_cons_self _ _)
      0.939 1.000 (by norm_num) (by norm_num) (by norm_num)).1⟩

/-- C10: for any table material and conductor, both capacitances strictly
decrease as the insulation thickness grows (for positive thicknesses, at the
active stranding factor); in particular the 12 table thicknesses, being
strictly increasing, give strictly decreasing capacitances within a group. -/
theorem C10_thickness_strict_decrease (name g s : String) (d D : ℚ)
    (hm : (name, d) ∈ DIELECTRIC_LIST) (hc : (g, s, D) ∈ CONDUCTOR_LIST) :
    (∀ t1 t2 : ℚ, 0 < t1 → t1 < t2 →
      capacitance d D t2 < capacitance d D t1 ∧
      capacitance2 d D t2 < capacitance2 d D t1) ∧
    (∀ u1 ∈ INSULATION_THICKNESS_LIST, ∀ u2 ∈ INSULATION_THICKNESS_LIST, u1 < u2 →
      capacitance d D u2 < capacitance d D u1 ∧
      capacitance2 d D u2 < capacitance2 d D u1) := by
  have hD : 0 < D := conductor_pos _ hc
  have hdr : (0 : ℝ) < (d : ℝ) := by exact_mod_cast dielectric_pos _ hm
  have hDr : (0 : ℝ) < (D : ℝ) := by exact_mod_cast hD
  have hk : (0 : ℝ) < (STRANDING_FACTOR : ℝ) := by norm_num [STRANDING_FACTOR]
  have hk1 : ((STRANDING_FACTOR : ℚ) : ℝ) ≤ 1 := by norm_num [STRANDING_FACTOR]
  have main : ∀ t1 t2 : ℚ, 0 < t1 → t1 < t2 →
      capacitance d D t2 < capacitance d D t1 ∧
      capacitance2 d D t2 < capacitance2 d D t1 := by
    intro t1 t2 ht1 ht12
    have ht1r : (0 : ℝ) < (t1 : ℝ) := by exact_mod_cast ht1
    have ht12r : (t1 : ℝ) < (t2 : ℝ) := by exact_mod_cast ht12
    have hkD : (0 : ℝ) < (STRANDING_FACTOR : ℝ) * (D : ℝ) := by positivity
    have hgcx : 1 < (1.3 * ((2.0 * (t1 : ℝ)) + (D : ℝ))) /
        ((STRANDING_FACTOR : ℝ) * (D : ℝ)) := gc_arg_gt_one hk hk1 hDr ht1r
    have hgcxy : (1.3 * ((2.0 * (t1 : ℝ)) + (D : ℝ))) /
          ((STRANDING_FACTOR : ℝ) * (D : ℝ)) <
        (1.3 * ((2.0 * (t2 : ℝ)) + (D : ℝ))) /
          ((STRANDING_FACTOR : ℝ) * (D : ℝ)) :=
      div_lt_div_of_pos_right (by nlinarith) hkD
    have hhjx : 1 < (2 * ((2.0 * (t1 : ℝ)) + (D : ℝ))) /
        ((STRANDING_FACTOR : ℝ) * (D : ℝ)) := hj_arg_gt_one hk hk1 hDr ht1r
    have hhjxy : (2 * ((2.0 * (t1 : ℝ)) + (D : ℝ))) /
          ((STRANDING_FACTOR : ℝ) * (D : ℝ)) <
        (2 * ((2.0 * (t2 : ℝ)) + (D : ℝ))) /
          ((STRANDING_FACTOR : ℝ) * (D : ℝ)) :=
      div_lt_div_of_pos_right (by nlinarith) hkD
    constructor
    · rw [capacitance, capacitance, capacitanceK, capacitanceK]
      exact div_logb_anti (by positivity) hgcx hgcxy
    · rw [capacitance2, capacitance2, capacitance2K, capacitance2K]
      exact div_log_mul_anti (by norm_num) hdr hhjx hhjxy
  exact ⟨main, fun u1 hu1 u2 _ h12 => main u1 u2 (thickness_pos _ hu1) h12⟩

/-- C10 witness: ECTFE/Halar with AWG30, comparing thicknesses 0.006 and
0.010 from the table. -/
theorem C10_thickness_strict_decrease_witness :
    ((0 : ℚ) < 0.006 ∧ (0.006 : ℚ) < 0.010) ∧
    (capacitance 2.60 0.012 0.010 < capacitance 2.60 0.012 0.006 ∧
      capacitance2 2.60 0.012 0.010 < capacitance2 2.60 0.012 0.006) :=
  ⟨⟨by norm_num, by norm_num⟩,
    (C10_thickness_strict_decrease "ECTFE/Halar" "AWG30" "7/38" 2.60 0.012
      (List.mem_cons_self _ _) (List.mem_cons_self _ _)).1 0.006 0.010
      (by norm_num) (by norm_num)⟩

theorem utpLines_length : utpLines.length = 960 := by
  rw [utpLines, List.length_map, utpCombos_length]

/-- Indexing past a full first block of an append. -/
theorem getElem_append_plus {β : Type _} (as bs : List β) (m : ℕ) (hm : m < bs.length)
    (hh : as.length + m < (as ++ bs).length) : (as ++ bs)[as.length + m] = bs[m] := by
  rw [List.getElem_append_right (Nat.le_add_right _ _)]
  simp only [Nat.add_sub_cancel_left]

/-- Indexing into a `flatMap` whose blocks all have length `n`. -/
theorem getElem_flatMap_const {α β : Type _} (f : α → List β) (n : ℕ) (l : List α)
    (i j : ℕ) (hi : i < l.length) (hj : j < n) (hn : ∀ a ∈ l, (f a).length = n)
    (h : i * n + j < (l.flatMap f).length) (h2 : j < (f l[i]).length) :
    (l.flatMap f)[i * n + j] = (f l[i])[j] := by
  induction l generalizing i with
  | nil => exact absurd hi (Nat.not_lt_zero i)
  | cons a tl ih =>
    cases i with
    | zero =>
      have hfa : j < (f a).length := by simpa using h2
      simp only [Nat.zero_mul, Nat.zero_add, List.flatMap_cons,
        List.getElem_cons_zero] at h ⊢
      rw [List.getElem_append_left hfa]
    | succ i =>
      have hlen : (f a).length = n := hn a (List.mem_cons_self a tl)
      have h3 : (i + 1) * n + j = (f a).length + (i * n + j) := by
        rw [hlen]
        ring
      have hi' : i < tl.length := Nat.lt_of_succ_lt_succ hi
      have hn' : ∀ a ∈ tl, (f a).length = n := fun a ha => hn a (List.mem_cons_of_mem _ ha)
      have h2' : j < (f tl[i]).length := by
        simpa only [List.getElem_cons_succ] using h2
      have h' : i * n + j < (tl.flatMap f).length := by
        have hh := h
        rw [h3, List.flatMap_cons, List.length_append] at hh
        omega
      have hb : (f a).length + (i * n + j) < ((f a) ++ tl.flatMap f).length := by
        rw [List.length_append]
        omega
      have key : ((a :: tl).flatMap f)[(i + 1) * n + j] = (tl.flatMap f)[i * n + j] := by
        simp only [List.flatMap_cons, h3]
        exact getElem_append_plus _ _ _ h' hb
      rw [key]
      simp only [List.getElem_cons_succ]
      exact ih i hi' hn' h' h2'

theorem conductorBlock_length : ∀ m, (conductorBlock m).length = 60 := fun _ => rfl

theorem thicknessRow_length : ∀ m c, (thicknessRow m c).length = 12 := fun _ _ => rfl

/-- C5: the output appears in the nested order of the table definitions:
line `i*60 + j*12 + k` is the line of material `i`, conductor `j` and
thickness `k`; with `i = j = k = 0` the first line uses the first entry of
each table, and with `i,j,k` maximal the last line uses the last entries. -/
theorem C5_output_order (i : Fin 16) (j : Fin 5) (k : Fin 12) :
    utpCombos.get ⟨i.val * 60 + j.val * 12 + k.val, by
        have hi := i.isLt
        have hj := j.isLt
        have hk := k.isLt
        rw [utpCombos_length]
        omega⟩ =
      (DIELECTRIC_LIST.get ⟨i.val, by rw [DIELECTRIC_LIST_length]; exact i.isLt⟩,
       CONDUCTOR_LIST.get ⟨j.val, by rw [CONDUCTOR_LIST_length]; exact j.isLt⟩,
       INSULATION_THICKNESS_LIST.get ⟨k.val, by
         rw [INSULATION_THICKNESS_LIST_length]; exact k.isLt⟩) ∧
    utpLines.get ⟨i.val * 60 + j.val * 12 + k.val, by
        have hi := i.isLt
        have hj := j.isLt
        have hk := k.isLt
        rw [utpLines_length]
        omega⟩ =
      mkLine (DIELECTRIC_LIST.get ⟨i.val, by rw [DIELECTRIC_LIST_length]; exact i.isLt⟩)
        (CONDUCTOR_LIST.get ⟨j.val, by rw [CONDUCTOR_LIST_length]; exact j.isLt⟩)
        (INSULATION_THICKNESS_LIST.get ⟨k.val, by
          rw [INSULATION_THICKNESS_LIST_length]; exact k.isLt⟩) := by
  have hi := i.isLt
  have hj := j.isLt
  have hk := k.isLt
  have hbD : i.val < DIELECTRIC_LIST.length := by rw [DIELECTRIC_LIST_length]; exact hi
  have hbC : j.val < CONDUCTOR_LIST.length := by rw [CONDUCTOR_LIST_length]; exact hj
  have hbT : k.val < INSULATION_THICKNESS_LIST.length := by
    rw [INSULATION_THICKNESS_LIST_length]; exact hk
  have hjk : j.val * 12 + k.val < 60 := by omega
  have hb0 : i.val * 60 + (j.val * 12 + k.val) < utpCombos.length := by
    rw [utpCombos_length]; omega
  have hb1 : i.val * 60 + (j.val * 12 + k.val) <
      (DIELECTRIC_LIST.flatMap conductorBlock).length := hb0
  have hb2 : j.val * 12 + k.val < (conductorBlock DIELECTRIC_LIST[i.val]).length := by
    rw [conductorBlock_length]; exact hjk
  have hb2' : j.val * 12 + k.val <
      (CONDUCTOR_LIST.flatMap (thicknessRow DIELECTRIC_LIST[i.val])).length := hb2
  have hb3 : k.val <
      (thicknessRow DIELECTRIC_LIST[i.val] CONDUCTOR_LIST[j.val]).length := by
    rw [thicknessRow_length]; exact hk
  have step1 : utpCombos[i.val * 60 + (j.val * 12 + k.val)] =
      (conductorBlock DIELECTRIC_LIST[i.val])[j.val * 12 + k.val] :=
    getElem_flatMap_const conductorBlock 60 DIELECTRIC_LIST i.val (j.val * 12 + k.val)
      hbD hjk (fun a _ => conductorBlock_length a) hb1 hb2
  have step2 : (conductorBlock DIELECTRIC_LIST[i.val])[j.val * 12 + k.val] =
      (thicknessRow DIELECTRIC_LIST[i.val] CONDUCTOR_LIST[j.val])[k.val] :=
    getElem_flatMap_const (thicknessRow DIELECTRIC_LIST[i.val]) 12 CONDUCTOR_LIST
      j.val k.val hbC hk (fun a _ => thicknessRow_length _ a) hb2' hb3
  have step3 : (thicknessRow DIELECTRIC_LIST[i.val] CONDUCTOR_LIST[j.val])[k.val] =
      (DIELECTRIC_LIST[i.val], CONDUCTOR_LIST[j.val],
        INSULATION_THICKNESS_LIST[k.val]) := by
    simp [thicknessRow]
  have hfirst : utpCombos[i.val * 60 + (j.val * 12 + k.val)] =
      (DIELECTRIC_LIST[i.val], CONDUCTOR_LIST[j.val],
        INSULATION_THICKNESS_LIST[k.val]) := (step1.trans step2).trans step3
  constructor
  · simp only [List.get_eq_getElem, Nat.add_assoc]
    exact hfirst
  · simp only [List.get_eq_getElem, Nat.add_assoc, utpLines, List.getElem_map, hfirst]

/-- Fixed-point rendering of a real value, modelling a `%w.pf` printf
conversion: round to `prec` decimal places, left-pad with spaces to `width`.
(The C8 structural theorem below does not depend on the digits produced.) -/
noncomputable def fmtFixed (width prec : Nat) (x : ℝ) : String :=
  let scaled : ℤ := ⌊x * (10 : ℝ) ^ prec + 1 / 2⌋
  let sign : String := if scaled < 0 then ("-") else ("")
  let n : ℕ := scaled.natAbs
  let intStr : String := toString (n / 10 ^ prec)
  let fracRaw : String := toString (n % 10 ^ prec)
  let fracStr : String :=
    String.mk (List.replicate (prec - fracRaw.length) (Char.ofNat 48)) ++ fracRaw
  let core : String := sign ++ intStr ++ (if prec = 0 then ("") else ("." ++ fracStr))
  String.mk (List.replicate (width - core.length) (Char.ofNat 32)) ++ core

/-- The `print` line of the source, from its format string
`"%s %1.3f inch thick %s = %5.2f pf/ft %5.4f pf/mm (General Cable) %5.2f
pf/ft %5.4f pf/mm (Howard Johnson)"` applied to
`(conductor[0], thickness, material[0], capacitance, capacitance_mm,
capacitance2, capacitance2_mm)`. -/
noncomputable def lineString (l : Line) : String :=
  l.gauge ++ " " ++ fmtFixed 1 3 ((l.thickness : ℝ)) ++ " inch thick " ++
    l.material ++ " = " ++ fmtFixed 5 2 l.cap_ft ++ " pf/ft " ++
    fmtFixed 5 4 l.cap_mm ++ " pf/mm (General Cable) " ++
    fmtFixed 5 2 l.cap2_ft ++ " pf/ft " ++ fmtFixed 5 4 l.cap2_mm ++
    " pf/mm (Howard Johnson)"

/-- `containsInOrder s fields`: the strings of `fields` occur in `s`, pairwise
disjointly and in the given order. -/
def containsInOrder : String → List String → Prop
  | _, [] => True
  | s, f :: fs => ∃ pre tail, s = pre ++ f ++ tail ∧ containsInOrder tail fs

/-- Interleave separators and fields: `glue [(s1,f1),...,(sn,fn)] t` is
`s1 ++ f1 ++ s2 ++ f2 ++ ... ++ sn ++ fn ++ t`. -/
def glue : List (String × String) → String → String
  | [], t => t
  | (sep, f) :: ps, t => sep ++ (f ++ glue ps t)

/-- Any interleaving of separators and fields contains the fields in order. -/
theorem containsInOrder_glue (ps : List (String × String)) (t : String) :
    containsInOrder (glue ps t) (ps.map Prod.snd) := by
  induction ps with
  | nil =>
    simp only [List.map_nil, containsInOrder]
  | cons p ps ih =>
    cases p with
    | mk sep f =>
      simp only [List.map_cons, glue, containsInOrder]
      exact ⟨sep, glue ps t, (String.append_assoc sep f (glue ps t)).symm, ih⟩

theorem lit_inch_thick : (" inch thick " : String) = " " ++ "inch thick" ++ " " := by
  decide

theorem lit_pf_ft : (" pf/ft " : String) = " " ++ "pf/ft" ++ " " := by
  decide

theorem lit_pf_mm_gc :
    (" pf/mm (General Cable) " : String) = " " ++ "pf/mm" ++ " " ++ "(General Cable)" ++ " " := by
  decide

theorem lit_pf_mm_hj :
    (" pf/mm (Howard Johnson)" : String) = " " ++ "pf/mm" ++ " " ++ "(Howard Johnson)" := by
  decide

/-- C8: every emitted line contains, in order: the gauge label, the formatted
thickness, "inch thick", the material name, the formatted cap_ft, "pf/ft",
the formatted cap_mm, "pf/mm", "(General Cable)", the formatted cap2_ft,
"pf/ft", the formatted cap2_mm, "pf/mm", "(Howard Johnson)". -/
theorem C8_line_fields (l : Line) :
    containsInOrder (lineString l)
      [l.gauge, fmtFixed 1 3 ((l.thickness : ℝ)), "inch thick", l.material,
       fmtFixed 5 2 l.cap_ft, "pf/ft", fmtFixed 5 4 l.cap_mm, "pf/mm",
       "(General Cable)", fmtFixed 5 2 l.cap2_ft, "pf/ft",
       fmtFixed 5 4 l.cap2_mm, "pf/mm", "(Howard Johnson)"] := by
  have key : lineString l = glue
      [("", l.gauge), (" ", fmtFixed 1 3 ((l.thickness : ℝ))), (" ", "inch thick"),
       (" ", l.material), (" = ", fmtFixed 5 2 l.cap_ft), (" ", "pf/ft"),
       (" ", fmtFixed 5 4 l.cap_mm), (" ", "pf/mm"), (" ", "(General Cable)"),
       (" ", fmtFixed 5 2 l.cap2_ft), (" ", "pf/ft"), (" ", fmtFixed 5 4 l.cap2_mm),
       (" ", "pf/mm"), (" ", "(Howard Johnson)")] "" := by
    simp only [lineString, glue, lit_inch_thick, lit_pf_ft, lit_pf_mm_gc, lit_pf_mm_hj,
      String.append_assoc, String.append_empty, String.empty_append]
  rw [key]
  exact containsInOrder_glue _ ""

end Utp
